import Mathlib

/-!
Verification of the temporal feature-aggregation and rating-update engine of
an NBA game-outcome prediction pipeline.

The development shallowly embeds the pipeline's core functions:

* `utils/compute_aggregated_stats.py`: `get_current_elo`,
  `get_team_stats_average`, `get_player_stats_top_n_average`, `compute_stats`;
* `utils/save_season_elo.py`: `expected_outcome`, `update_elo`, `elo_formula`,
  `initialize_elo`, `compute_season_elo`;
* `utils/compute_game_result.py`: `get_team_win_loss_record`;
* `utils/data_generator.py`: `generate_X`, `generate_y`,
  `generate_training_data`.

Tabular data (pandas DataFrames) is embedded as lists of row structures kept
in the frame's row order; numeric statistic columns become rationals, Elo
arithmetic (which involves a real power `10 ** x`) is embedded over the real
numbers.  Dates are integers (days), matching the role the code gives them
(only comparisons, min, and a one-day offset are ever used).  Python
exceptions raised by a function are embedded as the `Except.error` branch of
its result; a Python function that catches an exception and returns `None`
is embedded as an `Option`-valued function.

Pandas-operation conventions used by the embedding:

* `df[mask]` keeps the frame's row order, hence `List.filter`;
* `df.sort_values(by=c)` is embedded as a stable `List.insertionSort` on the
  key (the averaging results proved below are permutation-invariant, so the
  stability convention is never load-bearing);
* `series.iloc[-1]` is `List.getLast?`;
* `df.groupby(k)` sorts the group keys in ascending order (pandas default
  `sort=True`), hence grouped results are embedded as traversals of the
  ascending-sorted deduplicated key list;
* `series.nlargest(n)` sorts descending by value, stable with respect to the
  index order of the series (pandas `keep='first'`), and takes `n`;
* `"pat" in s` (substring test) is embedded via splitting: the
  pattern occurs in `s` iff splitting on it yields at least two pieces.
-/

namespace NBA

/-- Equality of `Except` results is decidable when both components are. -/
instance {ε α : Type} [DecidableEq ε] [DecidableEq α] : DecidableEq (Except ε α)
  | .error e, .error f =>
    if h : e = f then .isTrue (by rw [h]) else .isFalse (by simp [h])
  | .error _, .ok _ => .isFalse (by simp)
  | .ok _, .error _ => .isFalse (by simp)
  | .ok a, .ok b =>
    if h : a = b then .isTrue (by rw [h]) else .isFalse (by simp [h])

/-- Split a character list on the first-found occurrences of a non-empty
separator, left to right and non-overlapping; `skip` counts separator
characters still to be consumed after a match. -/
def splitGo (sep : List Char) : List Char → List Char → Nat → List (List Char)
  | [], cur, _ => [cur.reverse]
  | c :: rest, cur, skip =>
    match skip with
    | k + 1 => splitGo sep rest cur k
    | 0 =>
      if sep.isPrefixOf (c :: rest) then
        cur.reverse :: splitGo sep rest [] (sep.length - 1)
      else
        splitGo sep rest (c :: cur) 0

/-- Python's `s.split(sep)` for a non-empty separator (and the identity
singleton for an empty one, which never occurs in the embedded code). -/
def strSplitOn (s sep : String) : List String :=
  if sep.data.isEmpty then [s]
  else (splitGo sep.data s.data [] 0).map (fun cs => String.mk cs)

/-- Python's `s.strip()`: remove leading and trailing whitespace. -/
def strTrim (s : String) : String :=
  String.mk (((s.data.dropWhile Char.isWhitespace).reverse.dropWhile
    Char.isWhitespace).reverse)

/-- Substring test: Python's `pat in s` / `Series.str.contains(pat)` for a
plain (regex-free) pattern: splitting on an occurring pattern yields at
least two pieces. -/
def strContains (s pat : String) : Bool :=
  2 ≤ (strSplitOn s pat).length

/-! ### Data model: rows of the three input tables -/

/-- A row of the rating table (columns `Team`, `Date`, `Elo`). -/
structure EloRow where
  team : String
  date : Int
  elo : Rat
deriving DecidableEq

/-- A row of the team-game table (columns `TEAM_ABBREVIATION`, `GAME_DATE`,
`MATCHUP`, `WL`, `GAME_ID`, and the 19 numeric statistic columns of
`TEAM_STATS_COLUMNS`).  A missing `WL` value (pandas `NaN`) is `none`. -/
structure TeamRow where
  teamAbbreviation : String
  gameDate : Int
  matchup : String
  wl : Option String
  gameId : Nat
  stats : Fin 19 → Rat
deriving DecidableEq

/-- A row of the player-game table (columns `Player_ID`, `MATCHUP`,
`GAME_DATE`, `MIN`, and the 19 numeric statistic columns
`PLAYER_STATS_COLUMNS[1:]`). -/
structure PlayerRow where
  playerId : Nat
  matchup : String
  gameDate : Int
  mins : Rat
  stats : Fin 19 → Rat
deriving DecidableEq

/-- The 19 entries of `TEAM_STATS_COLUMNS` (also `PLAYER_STATS_COLUMNS[1:]`). -/
def TEAM_STATS_COLUMNS : List String :=
  ["FGM", "FGA", "FG_PCT", "FG3M", "FG3A", "FG3_PCT",
   "FTM", "FTA", "FT_PCT", "OREB", "DREB", "REB", "AST",
   "STL", "BLK", "TOV", "PF", "PTS", "PLUS_MINUS"]

/-- Column-wise mean of a bag of 19-wide statistic vectors
(pandas `DataFrame.mean()` over the statistic columns). -/
def colMean (rows : List (Fin 19 → Rat)) : Fin 19 → Rat :=
  fun j => ((rows.map (fun s => s j)).sum) / (rows.length : Rat)

/-! ### `get_current_elo` (compute_aggregated_stats.py, lines 35-40) -/

/-- Embedding of `get_current_elo(elo_df, team, game_date)`: filter rows with
`Team == team` and `Date < game_date`; raise if empty; return the `Elo` of
the last remaining row (`iloc[-1]`). -/
def getCurrentElo (eloDf : List EloRow) (team : String) (gameDate : Int) :
    Except String Rat :=
  match (eloDf.filter (fun r => r.team == team && r.date < gameDate)).getLast? with
  | none => .error ("No Elo rating found for team " ++ team)
  | some r => .ok r.elo

/-! ### `get_team_stats_average` (compute_aggregated_stats.py, lines 42-49) -/

/-- Embedding of `get_team_stats_average(team_df, team, game_date, lag)`:
filter rows with `TEAM_ABBREVIATION == team` and `GAME_DATE < game_date`;
raise if empty; sort the remaining rows by date descending; return the
column-wise mean of the 19 statistic columns over ALL remaining rows
together with the column names.  The `lag` parameter is accepted but never
used by the source. -/
def getTeamStatsAverage (teamDf : List TeamRow) (team : String)
    (gameDate : Int) (lag : Nat) : Except String ((Fin 19 → Rat) × List String) :=
  let teamStats :=
    teamDf.filter (fun r => r.teamAbbreviation == team && r.gameDate < gameDate)
  if teamStats.isEmpty then
    .error ("No team stats found for team " ++ team)
  else
    let lastNGames := teamStats.insertionSort (fun a b => b.gameDate ≤ a.gameDate)
    .ok (colMean (lastNGames.map (fun r => r.stats)), TEAM_STATS_COLUMNS)

/-! ### `get_player_stats_top_n_average` (compute_aggregated_stats.py, lines 51-79) -/

/-- Total minutes of player `pid` over the rows of `rows`
(`groupby('Player_ID')['MIN'].sum()` evaluated at one key). -/
def minutesSum (rows : List PlayerRow) (pid : Nat) : Rat :=
  ((rows.filter (fun r => r.playerId == pid)).map (fun r => r.mins)).sum

/-- The distinct player ids of `rows` in ascending order: the index of any
pandas `groupby('Player_ID')` result over `rows` (group keys are sorted). -/
def uniqueIdsAsc (rows : List PlayerRow) : List Nat :=
  ((rows.map (fun r => r.playerId)).dedup).insertionSort (fun a b => a ≤ b)

/-- The column names `Player_{i}_{stat}` for `i = 1..n`. -/
def playerSlotColumns (nPlayers : Nat) : List String :=
  ((List.range nPlayers).map (fun i =>
    TEAM_STATS_COLUMNS.map (fun c =>
      "Player_" ++ toString (i + 1) ++ "_" ++ c))).flatten

/-- The source's local `player_stats`: rows whose `MATCHUP` contains
`team` (`str.contains`) and whose date is strictly before `game_date`. -/
def qualifyingPlayerRows (playerDf : List PlayerRow) (team : String)
    (gameDate : Int) : List PlayerRow :=
  playerDf.filter (fun r => strContains r.matchup team && r.gameDate < gameDate)

/-- The source's local `last_n_games`: the qualifying rows sorted by date
descending (`sort_values(by='GAME_DATE', ascending=False)`). -/
def lastNGamesOf (playerDf : List PlayerRow) (team : String)
    (gameDate : Int) : List PlayerRow :=
  (qualifyingPlayerRows playerDf team gameDate).insertionSort
    (fun a b => b.gameDate ≤ a.gameDate)

/-- The source's local `top_players`:
`last_n_games.groupby('Player_ID')['MIN'].sum().nlargest(n_players).index`.
The grouped series is indexed by ascending player id; `nlargest` sorts it
descending by value, stably, and takes `n_players` entries. -/
def topPlayersOf (playerDf : List PlayerRow) (team : String)
    (gameDate : Int) (nPlayers : Nat) : List Nat :=
  ((uniqueIdsAsc (lastNGamesOf playerDf team gameDate)).insertionSort
    (fun a b => minutesSum (lastNGamesOf playerDf team gameDate) b ≤
                minutesSum (lastNGamesOf playerDf team gameDate) a)).take nPlayers

/-- The source's slice `top_players[:len(last_n_games)]`. -/
def selectedPlayersOf (playerDf : List PlayerRow) (team : String)
    (gameDate : Int) (nPlayers : Nat) : List Nat :=
  (topPlayersOf playerDf team gameDate nPlayers).take
    (lastNGamesOf playerDf team gameDate).length

/-- The source's local `top_player_stats`: the qualifying sorted rows whose
player id is among the selected top players (`isin`). -/
def topPlayerStatsOf (playerDf : List PlayerRow) (team : String)
    (gameDate : Int) (nPlayers : Nat) : List PlayerRow :=
  (lastNGamesOf playerDf team gameDate).filter
    (fun r => (selectedPlayersOf playerDf team gameDate nPlayers).contains r.playerId)

/-- The ascending-sorted group keys of
`top_player_stats.groupby('Player_ID')`. -/
def groupIdsOf (playerDf : List PlayerRow) (team : String)
    (gameDate : Int) (nPlayers : Nat) : List Nat :=
  uniqueIdsAsc (topPlayerStatsOf playerDf team gameDate nPlayers)

/-- The source's local `avg_player_stats` before padding:
`top_player_stats.groupby('Player_ID')[STATS].mean().values.flatten()` —
per-player column-wise means in ascending player-id order (the group-key
order), flattened row-major. -/
def avgPlayerStatsOf (playerDf : List PlayerRow) (team : String)
    (gameDate : Int) (nPlayers : Nat) : List Rat :=
  ((groupIdsOf playerDf team gameDate nPlayers).map (fun pid =>
    List.ofFn (colMean
      (((topPlayerStatsOf playerDf team gameDate nPlayers).filter
          (fun r => r.playerId == pid)).map (fun r => r.stats))))).flatten

/-- The source's `avg_player_stats` after the `padding_needed` step: when
`n_players - len(unique ids)` is positive, append that many all-zero
19-wide slots (`np.concatenate` with `np.zeros`, flattened). -/
def paddedBlockOf (playerDf : List PlayerRow) (team : String)
    (gameDate : Int) (nPlayers : Nat) : List Rat :=
  if 0 < (nPlayers : Int) -
      ((groupIdsOf playerDf team gameDate nPlayers).length : Int) then
    avgPlayerStatsOf playerDf team gameDate nPlayers ++ List.replicate
      ((nPlayers - (groupIdsOf playerDf team gameDate nPlayers).length) * 19) 0
  else avgPlayerStatsOf playerDf team gameDate nPlayers

/-- Embedding of
`get_player_stats_top_n_average(player_df, team, game_date, lag, n_players, ...)`:
raise if no qualifying row exists, otherwise return the zero-padded
flattened per-player means with the slot column names and the selected id
list.  The returned triple is
`(avg_player_stats, player_columns, top_players[:len(top_player_stats)])`
(the `player_names` dictionary of the source is display-only and derived
from the returned id list, so it is not modelled). -/
def getPlayerStatsTopNAverage (playerDf : List PlayerRow) (team : String)
    (gameDate : Int) (lag : Nat) (nPlayers : Nat) :
    Except String (List Rat × List String × List Nat) :=
  if (qualifyingPlayerRows playerDf team gameDate).isEmpty then
    .error ("No player stats found for team " ++ team)
  else
    .ok (paddedBlockOf playerDf team gameDate nPlayers,
         playerSlotColumns nPlayers,
         (topPlayersOf playerDf team gameDate nPlayers).take
           (topPlayerStatsOf playerDf team gameDate nPlayers).length)

/-! ### `compute_stats` (compute_aggregated_stats.py, lines 82-95) -/

/-- Embedding of `compute_stats(...)`: run the three aggregations in order,
propagating the first failure, and on success concatenate
`[current_elo] ++ team stat means ++ player block` with column names
`Elo :: team columns ++ player columns`. -/
def computeStats (eloDf : List EloRow) (teamDf : List TeamRow)
    (playerDf : List PlayerRow) (team : String) (gameDate : Int)
    (lag : Nat) (nPlayers : Nat) :
    Except String (List Rat × List String × List Nat) := do
  let currentElo ← getCurrentElo eloDf team gameDate
  let teamPart ← getTeamStatsAverage teamDf team gameDate lag
  let playerPart ← getPlayerStatsTopNAverage playerDf team gameDate lag nPlayers
  .ok (currentElo :: (List.ofFn teamPart.1 ++ playerPart.1),
       "Elo" :: (teamPart.2 ++ playerPart.2.1),
       playerPart.2.2)

/-! ### `generate_X` (data_generator.py, lines 18-72) -/

/-- Embedding of `generate_X(...)`: call `compute_stats` for `team1` and
then for `team2`; if either raises (`ValueError`), return `None`
(the source catches the exception, logs, and returns `(None, None)`);
otherwise return the concatenated vector and the column names prefixed
with the side labels. -/
def generateX (eloDf : List EloRow) (teamDf : List TeamRow)
    (playerDf : List PlayerRow) (team1 team2 : String) (gameDate : Int)
    (lag : Nat) (nPlayers : Nat) : Option (List Rat × List String) :=
  match computeStats eloDf teamDf playerDf team1 gameDate lag nPlayers,
        computeStats eloDf teamDf playerDf team2 gameDate lag nPlayers with
  | .ok x1, .ok x2 =>
      some (x1.1 ++ x2.1,
            x1.2.1.map (fun c => "Team_1_" ++ c) ++
            x2.2.1.map (fun c => "Team_2_" ++ c))
  | _, _ => none

/-! ### `get_team_win_loss_record` (compute_game_result.py, lines 18-38)
     and `generate_y` (data_generator.py, lines 75-92) -/

/-- One row of the win/loss record produced by `get_team_win_loss_record`
(columns `GAME_DATE`, `MATCHUP`, `WL`, `WIN`). -/
structure WinLossRow where
  gameDate : Int
  matchup : String
  wl : Option String
  win : Nat
deriving DecidableEq

/-- The source's local `team_games`: the team's rows, optionally restricted
to those dated on or before `game_date`. -/
def wlFilteredGames (teamDf : List TeamRow) (team : String)
    (gameDate : Option Int) : List TeamRow :=
  match gameDate with
  | some d =>
    (teamDf.filter (fun r => r.teamAbbreviation == team)).filter
      (fun r => r.gameDate ≤ d)
  | none => teamDf.filter (fun r => r.teamAbbreviation == team)

/-- Embedding of `get_team_win_loss_record(team_df, team, game_date)`:
filter the team's rows, optionally keep only rows dated on or before
`game_date`, raise if empty, sort ascending by date, and attach the
`WIN` column: `1 if WL == "W" else 0`. -/
def getTeamWinLossRecord (teamDf : List TeamRow) (team : String)
    (gameDate : Option Int) : Except String (List WinLossRow) :=
  if (wlFilteredGames teamDf team gameDate).isEmpty then
    .error ("No games found for team " ++ team)
  else
    .ok (((wlFilteredGames teamDf team gameDate).insertionSort
        (fun a b => a.gameDate ≤ b.gameDate)).map (fun r =>
      { gameDate := r.gameDate, matchup := r.matchup, wl := r.wl,
        win := if r.wl == some "W" then 1 else 0 }))

/-- Embedding of `generate_y(result_df, team, game_date)`: build the
win/loss record up to `game_date`, keep the rows dated exactly
`game_date`, raise if none, and return the `WIN` value of the first
(`iloc[0]`). -/
def generateY (resultDf : List TeamRow) (team : String) (gameDate : Int) :
    Except String Nat := do
  let wlr ← getTeamWinLossRecord resultDf team (some gameDate)
  match (wlr.filter (fun r => r.gameDate == gameDate)).head? with
  | none => .error ("No game found for team " ++ team)
  | some r => .ok r.win

/-! ### Rating engine (save_season_elo.py)

Elo values involve the real power `10 ** ((elo_b - elo_a) / m)`, so the
rating arithmetic is embedded over the real numbers. -/

/-- Constant `K_FACTOR = 20` (save_season_elo.py, line 10). -/
def K_FACTOR : ℝ := 20

/-- Constant `M = 400` (save_season_elo.py, line 11). -/
def M : ℝ := 400

/-- Constant `STARTING_ELO = 1000` (save_season_elo.py, line 12). -/
def STARTING_ELO : ℝ := 1000

/-- Embedding of `expected_outcome(elo_a, elo_b, m)`:
`1 / (1 + 10 ** ((elo_b - elo_a) / m))`. -/
noncomputable def expectedOutcome (eloA eloB m : ℝ) : ℝ :=
  1 / (1 + (10 : ℝ) ^ ((eloB - eloA) / m))

/-- Embedding of `update_elo(elo_a, elo_b, actual_score, k, m)`:
`elo_a + k * (actual_score - expected_outcome(elo_a, elo_b, m))`. -/
noncomputable def updateElo (eloA eloB actualScore k m : ℝ) : ℝ :=
  eloA + k * (actualScore - expectedOutcome eloA eloB m)

/-- A per-team rating series: the `(date, rating)` checkpoint list the
source keeps as `elo[team]`. -/
abbrev Series := List (Int × ℝ)

/-- The rating-replay state: the `elo` dictionary, keyed by team
abbreviation in insertion order. -/
abbrev EloState := List (String × Series)

/-- A row of the team-game table as consumed by the rating engine
(columns `TEAM_ABBREVIATION`, `MATCHUP`, `GAME_DATE`, `WL`). -/
structure Game where
  team : String
  matchup : String
  date : Int
  wl : Option String
deriving DecidableEq

/-- Opponent extraction of `elo_formula`:
`game['MATCHUP'].split(' ')[-1]` (the last space-delimited token; a split
always yields at least one piece, so the default is never used). -/
def opponentOf (matchup : String) : String :=
  ((strSplitOn matchup " ").getLast?).getD ""

/-- Dictionary read `elo[t]` (`find?` on the first matching key). -/
def lookupSeries (st : EloState) (t : String) : Option Series :=
  (st.find? (fun p => p.1 == t)).map (fun p => p.2)

/-- Dictionary-entry mutation `elo[t].append(e)`. -/
def appendEntry (st : EloState) (t : String) (e : Int × ℝ) : EloState :=
  st.map (fun p => if p.1 == t then (p.1, p.2 ++ [e]) else p)

/-- The winning side of a game row: the row's own team when `WL == 'W'`,
else the opponent parsed from the matchup text. -/
def winnerOf (game : Game) : String :=
  if game.wl == some "W" then game.team else opponentOf game.matchup

/-- The losing side of a game row (the other of the two). -/
def loserOf (game : Game) : String :=
  if game.wl == some "W" then opponentOf game.matchup else game.team

/-- Embedding of `elo_formula(game, elo, k, m)`: name winner and loser from
the `WL` flag and the matchup's last token, read both sides' latest
ratings, then append the updated `(date, rating)` pairs, winner first.
A missing dictionary key or an empty series is a raised error
(`KeyError` / `IndexError` in the source). -/
noncomputable def eloFormula (game : Game) (elo : EloState) (k m : ℝ) :
    Except String EloState :=
  match lookupSeries elo (winnerOf game), lookupSeries elo (loserOf game) with
  | some winnerSeries, some loserSeries =>
    match winnerSeries.getLast?, loserSeries.getLast? with
    | some w, some l =>
      .ok (appendEntry
            (appendEntry elo (winnerOf game)
              (game.date, updateElo w.2 l.2 1 k m))
            (loserOf game) (game.date, updateElo l.2 w.2 0 k m))
    | _, _ => .error "empty rating series"
  | _, _ => .error "unknown team"

/-- First-appearance-order deduplication: pandas `Series.unique()`. -/
def dedupFirst (l : List String) : List String :=
  l.foldl (fun acc t => if acc.contains t then acc else acc ++ [t]) []

/-- Embedding of `initialize_elo(teams, start_date)`: every team starts with
the single sentinel entry `(start_date - 1 day, STARTING_ELO)`. -/
def initializeElo (teams : List String) (startDate : Int) : EloState :=
  teams.map (fun t => (t, [(startDate - 1, STARTING_ELO)]))

/-- Embedding of `compute_season_elo(games_df)`: collect the distinct
subject teams, seed every series one day before the minimum game date, and
fold `elo_formula` over the game rows in input order.  (On an empty input
the source initializes an empty dictionary without consulting the minimum,
which the `getD 0` default reproduces.)  The final DataFrame conversion is
a reshaping of this state and is not modelled. -/
noncomputable def computeSeasonElo (games : List Game) : Except String EloState :=
  games.foldlM (fun st g => eloFormula g st K_FACTOR M)
    (initializeElo (dedupFirst (games.map (fun g => g.team)))
      (((games.map (fun g => g.date)).min?).getD 0))

/-! ### Dataset Builder: `generate_training_data` (data_generator.py, lines 112-201)

Each loop iteration is a state transition over the accumulating buffers
`X_list`, `y_list`, `game_ids` and the (reassigned-every-iteration)
`columns` variable.  A Python exception that escapes an iteration
uncaught is the `Except.error` branch; `print`-and-`continue` paths leave
the state unchanged. -/

/-- The builder's accumulating buffers. -/
structure BuilderState where
  xList : List (List Rat)
  yList : List Nat
  gameIds : List Nat
  columns : Option (List String)
deriving DecidableEq

/-- The buffers before the loop (the `columns` variable starts unassigned). -/
def initialBuilderState : BuilderState :=
  { xList := [], yList := [], gameIds := [], columns := none }

/-- Opponent extraction of the builder loop (data_generator.py, lines
141-148): if the matchup contains `"vs."`, take `split(" vs. ")[1].strip()`;
else if it contains `"@"`, take `split(" @ ")[1].strip()`; else log and
skip (`none`).  A contained `"vs."`/`"@"` without the surrounding spaces
makes the Python index `[1]` raise an uncaught `IndexError` (`error`). -/
def parseOpponent (matchup : String) : Except String (Option String) :=
  if strContains matchup "vs." then
    match (strSplitOn matchup " vs. ")[1]? with
    | some t => .ok (some (strTrim t))
    | none => .error "list index out of range"
  else if strContains matchup "@" then
    match (strSplitOn matchup " @ ")[1]? with
    | some t => .ok (some (strTrim t))
    | none => .error "list index out of range"
  else
    .ok none

/-- One iteration of the builder loop over a team-game row: parse the
opponent (unparseable → unchanged state), call `generate_X`
(`None` → skip, with the `columns` variable now holding `None`), call
`generate_y` (a raised error is caught by the loop's
`except Exception: continue`), and on success append to all three
buffers. -/
def processGame (eloDf : List EloRow) (teamDf : List TeamRow)
    (playerDf : List PlayerRow) (lag nPlayers : Nat)
    (st : BuilderState) (gameRow : TeamRow) : Except String BuilderState := do
  let gameDate := gameRow.gameDate
  let team1 := gameRow.teamAbbreviation
  match ← parseOpponent gameRow.matchup with
  | none => .ok st
  | some team2 =>
    match generateX eloDf teamDf playerDf team1 team2 gameDate lag nPlayers with
    | none => .ok { st with columns := none }
    | some xe =>
      match generateY teamDf team1 gameDate with
      | .error _ => .ok { st with columns := some xe.2 }
      | .ok y =>
        .ok { xList := st.xList ++ [xe.1], yList := st.yList ++ [y],
              gameIds := st.gameIds ++ [gameRow.gameId],
              columns := some xe.2 }

/-- The builder loop: fold `processGame` over the iterated game rows. -/
def buildLoop (eloDf : List EloRow) (teamDf : List TeamRow)
    (playerDf : List PlayerRow) (lag nPlayers : Nat)
    (rows : List TeamRow) (st : BuilderState) : Except String BuilderState :=
  rows.foldlM (processGame eloDf teamDf playerDf lag nPlayers) st

/-- The terminal outcome of a build: either the stacked table
(`GAME_ID`, feature rows, `Win` labels, column names) written to the
output path, or the `"No valid games were processed."` branch, in which
the function prints that message and returns normally without writing
anything. -/
inductive BuildResult where
  | saved (gameIds : List Nat) (rows : List (List Rat)) (labels : List Nat)
      (columns : Option (List String))
  | noValidGames
deriving DecidableEq

/-- Embedding of `generate_training_data(...)` (the data loading is out of
scope; the frames arrive as arguments): loop over every row of the
team-game table, then stack the buffers if both `X_list` and `y_list` are
non-empty, else take the no-valid-games branch. -/
def generateTrainingData (eloDf : List EloRow) (teamDf : List TeamRow)
    (playerDf : List PlayerRow) (lag nPlayers : Nat) :
    Except String BuildResult := do
  let st ← buildLoop eloDf teamDf playerDf lag nPlayers teamDf initialBuilderState
  if st.xList.isEmpty || st.yList.isEmpty then
    .ok .noValidGames
  else
    .ok (.saved st.gameIds st.xList st.yList st.columns)

/-! ### General helper lemmas -/

/-- A fold of `min` over integers bounds the seed and every element. -/
lemma foldl_min_le_int (xs : List Int) (x : Int) :
    ∀ a, (a = x ∨ a ∈ xs) → xs.foldl min x ≤ a := by
  induction xs generalizing x with
  | nil =>
    rintro a (rfl | h)
    · exact le_refl _
    · cases h
  | cons y ys ih =>
    rintro a (rfl | h)
    · exact le_trans (ih (min a y) (min a y) (Or.inl rfl)) (min_le_left _ _)
    · rcases List.mem_cons.mp h with rfl | h'
      · exact le_trans (ih (min x a) (min x a) (Or.inl rfl)) (min_le_right _ _)
      · exact ih (min x y) a (Or.inr h')

/-- `min?` (with any default) bounds every member of an integer list. -/
lemma min?_getD_le_of_mem_int {l : List Int} {a : Int} (ha : a ∈ l) :
    l.min?.getD 0 ≤ a := by
  cases l with
  | nil => cases ha
  | cons x xs =>
    show (some (xs.foldl min x)).getD 0 ≤ a
    rcases List.mem_cons.mp ha with rfl | h'
    · exact foldl_min_le_int xs a a (Or.inl rfl)
    · exact foldl_min_le_int xs x a (Or.inr h')

/-- In a list sorted by a key, the last element's key bounds all keys. -/
lemma key_le_getLast {α : Type} (f : α → Int) :
    ∀ (l : List α), l.Pairwise (fun x y => f x ≤ f y) →
      ∀ b, l.getLast? = some b → ∀ a ∈ l, f a ≤ f b := by
  intro l
  induction l with
  | nil =>
    intro _ b hb
    cases hb
  | cons x xs ih =>
    intro hp b hb a ha
    cases xs with
    | nil =>
      simp only [List.getLast?_singleton, Option.some.injEq] at hb
      subst hb
      simp only [List.mem_singleton] at ha
      subst ha
      exact le_refl _
    | cons y ys =>
      rw [List.getLast?_cons_cons] at hb
      rcases List.mem_cons.mp ha with rfl | ha'
      · exact (List.pairwise_cons.mp hp).1 b (List.mem_of_mem_getLast? hb)
      · exact ih (List.pairwise_cons.mp hp).2 b hb a ha'

/-- Column-wise means agree on permuted row bags. -/
lemma colMean_perm {l₁ l₂ : List (Fin 19 → Rat)} (h : List.Perm l₁ l₂) :
    colMean l₁ = colMean l₂ := by
  funext j
  unfold colMean
  rw [(h.map (fun s => s j)).sum_eq, h.length_eq]

/-! ### C1: `get_current_elo` looks only strictly before the cutoff -/

/-- C1.  For every team and cutoff date, `get_current_elo` raises the
no-rating error if and only if no entry of that team is dated strictly
before the cutoff; and — provided the team's entries appear in
nondecreasing date order, as the rating table produced by the rating
engine does — on success it returns the value of a most recent entry of
that team dated strictly before the cutoff, in particular never an entry
dated on or after the cutoff. -/
theorem getCurrentElo_no_lookahead (eloDf : List EloRow) (team : String)
    (gameDate : Int) :
    ((∃ msg, getCurrentElo eloDf team gameDate = .error msg) ↔
      ∀ r ∈ eloDf, r.team = team → ¬ r.date < gameDate) ∧
    ((eloDf.filter (fun r => r.team == team)).Pairwise
        (fun a b => a.date ≤ b.date) →
      ∀ v, getCurrentElo eloDf team gameDate = .ok v →
        ∃ r ∈ eloDf, r.team = team ∧ r.date < gameDate ∧ r.elo = v ∧
          ∀ s ∈ eloDf, s.team = team → s.date < gameDate → s.date ≤ r.date) := by
  have hff :
      eloDf.filter (fun r => r.team == team && r.date < gameDate) =
        (eloDf.filter (fun r => r.team == team)).filter
          (fun r => r.date < gameDate) := by
    rw [List.filter_filter]
    exact List.filter_congr (fun x _ => by rw [Bool.and_comm])
  constructor
  · constructor
    · rintro ⟨msg, hmsg⟩ r hr hteam hdate
      unfold getCurrentElo at hmsg
      rcases hlast : (eloDf.filter
          (fun r => r.team == team && r.date < gameDate)).getLast? with _ | s
      · have hnil := List.getLast?_eq_none_iff.mp hlast
        have := List.filter_eq_nil_iff.mp hnil r hr
        simp [hteam, hdate] at this
      · rw [hlast] at hmsg
        simp at hmsg
    · intro hall
      refine ⟨"No Elo rating found for team " ++ team, ?_⟩
      unfold getCurrentElo
      have hnil : eloDf.filter (fun r => r.team == team && r.date < gameDate) = [] := by
        rw [List.filter_eq_nil_iff]
        intro r hr hcontra
        simp only [Bool.and_eq_true, beq_iff_eq, decide_eq_true_eq] at hcontra
        exact hall r hr hcontra.1 hcontra.2
      rw [hnil]
      rfl
  · intro hsorted v hok
    unfold getCurrentElo at hok
    rcases hlast : (eloDf.filter
        (fun r => r.team == team && r.date < gameDate)).getLast? with _ | r₀
    · rw [hlast] at hok
      simp at hok
    · rw [hlast] at hok
      simp only [Except.ok.injEq] at hok
      have hr₀mem := List.mem_of_mem_getLast? hlast
      have hr₀ := List.mem_filter.mp hr₀mem
      simp only [Bool.and_eq_true, beq_iff_eq, decide_eq_true_eq] at hr₀
      refine ⟨r₀, hr₀.1, hr₀.2.1, hr₀.2.2, hok, ?_⟩
      intro s hs hsteam hsdate
      have hsmem : s ∈ eloDf.filter (fun r => r.team == team && r.date < gameDate) := by
        rw [List.mem_filter]
        exact ⟨hs, by simp [hsteam, hsdate]⟩
      rw [hff] at hlast hsmem
      exact key_le_getLast (fun r => r.date) _ (hsorted.filter _) r₀ hlast s hsmem

/-- Concrete instance of C1: three rating rows, two of team `A`, cutoff
date `4`; the returned value `120` is that of the latest prior entry. -/
def eloDfA : List EloRow :=
  [{ team := "A", date := 1, elo := 100 },
   { team := "A", date := 3, elo := 120 },
   { team := "B", date := 2, elo := 110 }]

/-- Witness for C1 at `eloDfA`, team `A`, cutoff `4`. -/
theorem getCurrentElo_no_lookahead_witness :
    ∃ r ∈ eloDfA, r.team = "A" ∧ r.date < 4 ∧ r.elo = 120 ∧
      ∀ s ∈ eloDfA, s.team = "A" → s.date < 4 → s.date ≤ r.date :=
  (getCurrentElo_no_lookahead eloDfA "A" 4).2 (by decide) 120 (by decide)

/-! ### C4: `get_team_stats_average` ignores the lag and averages all history -/

/-- C4.  For every team and cutoff date, `get_team_stats_average` returns
the same result for every value of the `lag` parameter; it fails if and
only if no row of that team is dated strictly before the cutoff; and on
success it returns the `TEAM_STATS_COLUMNS` names together with the
column-wise mean over all qualifying prior rows. -/
theorem getTeamStatsAverage_full_history (teamDf : List TeamRow)
    (team : String) (gameDate : Int) (lag lag' : Nat) :
    getTeamStatsAverage teamDf team gameDate lag =
      getTeamStatsAverage teamDf team gameDate lag' ∧
    ((∃ msg, getTeamStatsAverage teamDf team gameDate lag = .error msg) ↔
      ∀ r ∈ teamDf, r.teamAbbreviation = team → ¬ r.gameDate < gameDate) ∧
    (∀ v cols, getTeamStatsAverage teamDf team gameDate lag = .ok (v, cols) →
      cols = TEAM_STATS_COLUMNS ∧
      v = colMean ((teamDf.filter
        (fun r => r.teamAbbreviation == team && r.gameDate < gameDate)).map
        (fun r => r.stats))) := by
  refine ⟨rfl, ?_, ?_⟩
  · by_cases hemp : (teamDf.filter
        (fun r => r.teamAbbreviation == team && r.gameDate < gameDate)).isEmpty
    · constructor
      · intro _ r hr hteam hdate
        rw [List.isEmpty_iff] at hemp
        have := List.filter_eq_nil_iff.mp hemp r hr
        simp [hteam, hdate] at this
      · intro _
        refine ⟨"No team stats found for team " ++ team, ?_⟩
        simp only [getTeamStatsAverage]
        rw [if_pos hemp]
    · constructor
      · rintro ⟨msg, hmsg⟩
        simp only [getTeamStatsAverage] at hmsg
        rw [if_neg hemp] at hmsg
        cases hmsg
      · intro hall
        exfalso
        apply hemp
        rw [List.isEmpty_iff, List.filter_eq_nil_iff]
        intro r hr h
        simp only [Bool.and_eq_true, beq_iff_eq, decide_eq_true_eq] at h
        exact hall r hr h.1 h.2
  · intro v cols hok
    simp only [getTeamStatsAverage] at hok
    by_cases hemp : (teamDf.filter
        (fun r => r.teamAbbreviation == team && r.gameDate < gameDate)).isEmpty
    · rw [if_pos hemp] at hok
      cases hok
    · rw [if_neg hemp] at hok
      simp only [Except.ok.injEq, Prod.mk.injEq] at hok
      refine ⟨hok.2.symm, ?_⟩
      rw [← hok.1]
      exact colMean_perm ((List.perm_insertionSort _ _).map _)

/-- Concrete instance for C4: one qualifying row of constant statistics. -/
def teamDfA : List TeamRow :=
  [{ teamAbbreviation := "A", gameDate := 1, matchup := "A vs. B",
     wl := some "W", gameId := 7, stats := fun _ => 2 }]

/-- Witness for C4 at `teamDfA`, team `A`, cutoff `4`, lags `5` and `9`:
the returned vector is the column-wise mean over the qualifying rows. -/
theorem getTeamStatsAverage_full_history_witness :
    getTeamStatsAverage teamDfA "A" 4 5 = getTeamStatsAverage teamDfA "A" 4 9 ∧
    colMean ((((teamDfA.filter
        (fun r => r.teamAbbreviation == "A" && r.gameDate < 4)).insertionSort
        (fun a b => b.gameDate ≤ a.gameDate)).map (fun r => r.stats))) =
      colMean ((teamDfA.filter
        (fun r => r.teamAbbreviation == "A" && r.gameDate < 4)).map
        (fun r => r.stats)) :=
  ⟨(getTeamStatsAverage_full_history teamDfA "A" 4 5 9).1,
   ((getTeamStatsAverage_full_history teamDfA "A" 4 5 9).2.2 _ _ rfl).2⟩

/-! ### C5: the equal-ratings Elo update scenario -/

/-- C5.  With both pre-game ratings at `1000`, the expected outcome is
exactly `1/2` for each side, and the post-game ratings with step factor
`20` and logistic scale `400` are exactly `1010` for the winner
(realized outcome `1`) and `990` for the loser (realized outcome `0`). -/
theorem elo_equal_ratings_scenario :
    expectedOutcome 1000 1000 M = 1 / 2 ∧
    updateElo 1000 1000 1 K_FACTOR M = 1010 ∧
    updateElo 1000 1000 0 K_FACTOR M = 990 := by
  have h0 : ((1000 : ℝ) - 1000) / M = 0 := by
    norm_num
  have hexp : expectedOutcome 1000 1000 M = 1 / 2 := by
    unfold expectedOutcome
    rw [h0, Real.rpow_zero]
    norm_num
  refine ⟨hexp, ?_, ?_⟩ <;>
    · unfold updateElo K_FACTOR
      rw [hexp]
      norm_num

/-! ### C10: the Win label is 1 exactly for `WL == "W"` -/

/-- C10.  Every row of a win/loss record produced by
`get_team_win_loss_record` carries `WIN = 1` if and only if its `WL`
field is exactly `"W"`; any other value — `"L"`, an empty string, or a
missing value — yields `WIN = 0`.  Consequently a successful `generate_y`
returns `0` or `1`, and returns `1` only when a matching game row with
`WL = "W"` exists; a missing or malformed result is labelled `0`, not
raised or skipped. -/
theorem winLabel_iff_exact_W (teamDf : List TeamRow) (team : String)
    (gameDate : Option Int) (d : Int) :
    (∀ out, getTeamWinLossRecord teamDf team gameDate = .ok out →
      ∀ r ∈ out, (r.win = 1 ↔ r.wl = some "W") ∧
        (r.wl ≠ some "W" → r.win = 0)) ∧
    (∀ v, generateY teamDf team d = .ok v →
      (v = 1 ∨ v = 0) ∧
      (v = 1 → ∃ g ∈ teamDf, g.teamAbbreviation = team ∧ g.gameDate = d ∧
        g.wl = some "W")) := by
  have hrows : ∀ gd out, getTeamWinLossRecord teamDf team gd = .ok out →
      ∀ r ∈ out, ∃ src ∈ wlFilteredGames teamDf team gd,
        r.gameDate = src.gameDate ∧ r.wl = src.wl ∧
        r.win = (if src.wl == some "W" then 1 else 0) := by
    intro gd out hok r hr
    simp only [getTeamWinLossRecord] at hok
    by_cases hemp : (wlFilteredGames teamDf team gd).isEmpty
    · rw [if_pos hemp] at hok
      cases hok
    · rw [if_neg hemp] at hok
      simp only [Except.ok.injEq] at hok
      subst hok
      obtain ⟨src, hsrc, hmap⟩ := List.mem_map.mp hr
      refine ⟨src, (List.perm_insertionSort _ _).mem_iff.mp hsrc, ?_, ?_, ?_⟩ <;>
        rw [← hmap]
  have hwin : ∀ (src : TeamRow),
      ((if src.wl == some "W" then (1 : Nat) else 0) = 1 ↔ src.wl = some "W") ∧
      (src.wl ≠ some "W" → (if src.wl == some "W" then (1 : Nat) else 0) = 0) := by
    intro src
    by_cases h : src.wl = some "W"
    · simp [h]
    · simp [h]
  constructor
  · intro out hok r hr
    obtain ⟨src, _, _, hwl, hw⟩ := hrows gameDate out hok r hr
    rw [hw, hwl]
    exact hwin src
  · intro v hv
    unfold generateY at hv
    rcases hrec : getTeamWinLossRecord teamDf team (some d) with msg | wlr
    · rw [hrec] at hv
      simp [Bind.bind, Except.bind] at hv
    · rw [hrec] at hv
      simp only [Bind.bind, Except.bind] at hv
      rcases hhead : (wlr.filter (fun r => r.gameDate == d)).head? with _ | r
      · rw [hhead] at hv
        cases hv
      · rw [hhead] at hv
        simp only [Except.ok.injEq] at hv
        have hrfilter := List.mem_of_mem_head? hhead
        have hrwlr := List.mem_of_mem_filter hrfilter
        have hrdate : r.gameDate = d := by
          have := List.of_mem_filter hrfilter
          simpa using this
        obtain ⟨src, hsrcmem, hsd, hswl, hsw⟩ := hrows (some d) wlr hrec r hrwlr
        have hsrcTeam : src ∈ teamDf ∧ src.teamAbbreviation = team := by
          have h1 := List.mem_of_mem_filter hsrcmem
          have h2 := List.mem_filter.mp h1
          exact ⟨h2.1, by simpa using h2.2⟩
        constructor
        · rw [← hv, hsw]
          by_cases h : src.wl = some "W" <;> simp [h]
        · intro hv1
          refine ⟨src, hsrcTeam.1, hsrcTeam.2, ?_, ?_⟩
          · rw [← hsd, hrdate]
          · rw [← hv, hsw] at hv1
            by_cases h : src.wl = some "W"
            · exact h
            · simp [h] at hv1

/-- Concrete instance for C10: one won game, one lost game, one game with
a missing result, all of team `A`. -/
def teamDfB : List TeamRow :=
  [{ teamAbbreviation := "A", gameDate := 1, matchup := "A vs. B",
     wl := some "W", gameId := 1, stats := fun _ => 0 },
   { teamAbbreviation := "A", gameDate := 2, matchup := "A @ C",
     wl := some "L", gameId := 2, stats := fun _ => 0 },
   { teamAbbreviation := "A", gameDate := 3, matchup := "A vs. D",
     wl := none, gameId := 3, stats := fun _ => 0 }]

/-- Witness for C10 at `teamDfB`: the missing-result row is labelled 0. -/
theorem winLabel_iff_exact_W_witness :
    ((WinLossRow.mk 3 "A vs. D" none 0).win = 1 ↔
      (WinLossRow.mk 3 "A vs. D" none 0).wl = some "W") ∧
    ((WinLossRow.mk 3 "A vs. D" none 0).wl ≠ some "W" →
      (WinLossRow.mk 3 "A vs. D" none 0).win = 0) :=
  (winLabel_iff_exact_W teamDfB "A" none 2).1 _ rfl
    (WinLossRow.mk 3 "A vs. D" none 0) (by decide)

/-! ### C8: the Assembler skips on aggregator errors, concatenates on success -/

/-- C8.  For every pair of teams and game date, `generate_X` returns `None`
exactly when `compute_stats` raises for one of the two teams; when both
succeed it returns team 1's vector followed by team 2's vector, with the
column names prefixed `Team_1_` and `Team_2_` respectively. -/
theorem generateX_skip_or_concat (eloDf : List EloRow) (teamDf : List TeamRow)
    (playerDf : List PlayerRow) (team1 team2 : String) (gameDate : Int)
    (lag nPlayers : Nat) :
    (generateX eloDf teamDf playerDf team1 team2 gameDate lag nPlayers = none ↔
      (∃ e, computeStats eloDf teamDf playerDf team1 gameDate lag nPlayers
          = .error e) ∨
      (∃ e, computeStats eloDf teamDf playerDf team2 gameDate lag nPlayers
          = .error e)) ∧
    (∀ x1 c1 t1 x2 c2 t2,
      computeStats eloDf teamDf playerDf team1 gameDate lag nPlayers
          = .ok (x1, c1, t1) →
      computeStats eloDf teamDf playerDf team2 gameDate lag nPlayers
          = .ok (x2, c2, t2) →
      generateX eloDf teamDf playerDf team1 team2 gameDate lag nPlayers =
        some (x1 ++ x2,
          c1.map (fun c => "Team_1_" ++ c) ++
          c2.map (fun c => "Team_2_" ++ c))) := by
  constructor
  · unfold generateX
    rcases h1 : computeStats eloDf teamDf playerDf team1 gameDate lag nPlayers
        with e1 | v1 <;>
      rcases h2 : computeStats eloDf teamDf playerDf team2 gameDate lag nPlayers
        with e2 | v2 <;>
      simp
  · intro x1 c1 t1 x2 c2 t2 h1 h2
    unfold generateX
    rw [h1, h2]

/-- Concrete instance for C8: one rating row, one game row and one player
row per team, so that all three aggregations succeed for both sides. -/
def eloDfC : List EloRow :=
  [{ team := "A", date := 1, elo := 100 }, { team := "B", date := 1, elo := 105 }]

/-- Team rows for the C8 instance. -/
def teamDfC : List TeamRow :=
  [{ teamAbbreviation := "A", gameDate := 1, matchup := "A vs. B",
     wl := some "W", gameId := 1, stats := fun _ => 2 },
   { teamAbbreviation := "B", gameDate := 1, matchup := "B @ A",
     wl := some "L", gameId := 1, stats := fun _ => 3 }]

/-- Player rows for the C8 instance (the matchup text contains both team
codes, so the same row qualifies for either side). -/
def playerDfC : List PlayerRow :=
  [{ playerId := 9, matchup := "A vs. B", gameDate := 1, mins := 30,
     stats := fun _ => 4 }]

/-- Witness for C8 at the concrete frames: both aggregations succeed and
`generate_X` assembles a row. -/
theorem generateX_skip_or_concat_witness :
    ∃ v, generateX eloDfC teamDfC playerDfC "A" "B" 2 1 1 = some v :=
  ⟨_, (generateX_skip_or_concat eloDfC teamDfC playerDfC "A" "B" 2 1 1).2
    _ _ _ _ _ _ rfl rfl⟩

/-! ### C9: unparseable matchups are skipped without touching the buffers -/

/-- A matchup containing neither separator takes the log-and-continue
branch of the builder loop, for any state. -/
lemma processGame_skip_unparseable (eloDf : List EloRow) (teamDf : List TeamRow)
    (playerDf : List PlayerRow) (lag nPlayers : Nat) (g : TeamRow)
    (h1 : strContains g.matchup "vs." = false)
    (h2 : strContains g.matchup "@" = false) :
    ∀ st, processGame eloDf teamDf playerDf lag nPlayers st g = .ok st := by
  intro st
  have hp : parseOpponent g.matchup = .ok none := by
    unfold parseOpponent
    simp [h1, h2]
  unfold processGame
  rw [hp]
  rfl

/-- C9.  A game row whose matchup text contains neither `"vs."` nor `"@"`
is skipped by the Dataset Builder: the iteration returns the state
unchanged without throwing, and deleting the row from the iteration
sequence leaves the whole loop's result unchanged. -/
theorem unparseable_matchup_skipped (eloDf : List EloRow) (teamDf : List TeamRow)
    (playerDf : List PlayerRow) (lag nPlayers : Nat)
    (st : BuilderState) (g : TeamRow)
    (h1 : strContains g.matchup "vs." = false)
    (h2 : strContains g.matchup "@" = false) :
    processGame eloDf teamDf playerDf lag nPlayers st g = .ok st ∧
    ∀ pre post,
      buildLoop eloDf teamDf playerDf lag nPlayers (pre ++ g :: post) st =
        buildLoop eloDf teamDf playerDf lag nPlayers (pre ++ post) st := by
  refine ⟨processGame_skip_unparseable eloDf teamDf playerDf lag nPlayers g h1 h2 st,
    ?_⟩
  intro pre post
  unfold buildLoop
  rw [List.foldlM_append, List.foldlM_append]
  rcases hpre : pre.foldlM (processGame eloDf teamDf playerDf lag nPlayers) st
      with e | s
  · rfl
  · simp only [Bind.bind, Except.bind]
    rw [List.foldlM_cons,
      processGame_skip_unparseable eloDf teamDf playerDf lag nPlayers g h1 h2 s]
    rfl

/-- A game row with a matchup text containing neither separator. -/
def gBad : TeamRow :=
  { teamAbbreviation := "A", gameDate := 5, matchup := "LAL GSW",
    wl := some "W", gameId := 1, stats := fun _ => 0 }

/-- Witness for C9 at `gBad` and the empty builder state. -/
theorem unparseable_matchup_skipped_witness :
    processGame [] [] [] 3 7 initialBuilderState gBad = .ok initialBuilderState ∧
    buildLoop [] [] [] 3 7 [gBad] initialBuilderState =
      buildLoop [] [] [] 3 7 [] initialBuilderState :=
  ⟨(unparseable_matchup_skipped [] [] [] 3 7 initialBuilderState gBad
      (by decide) (by decide)).1,
   (unparseable_matchup_skipped [] [] [] 3 7 initialBuilderState gBad
      (by decide) (by decide)).2 [] []⟩

/-! ### C7: a build with zero successes does NOT raise — it returns normally

The claim says an accumulation of zero successful rows aborts with
`EmptyDatasetError`.  The source instead prints
`"No valid games were processed."` and returns `None` without raising:
the `else` branch of `generate_training_data` (data_generator.py, lines
200-201) is a `print`, not a `raise`. -/

/-- Counterexample to C7 as stated: a build over a single unparseable game
row accumulates zero successes, yet `generate_training_data` returns
normally (the no-valid-games branch) and raises no error at all. -/
theorem emptyBuild_counterexample :
    generateTrainingData [] [gBad] [] 3 7 = .ok .noValidGames ∧
    ∀ msg, generateTrainingData [] [gBad] [] 3 7 ≠ .error msg := by
  have h : generateTrainingData [] [gBad] [] 3 7 = .ok .noValidGames := by decide
  refine ⟨h, fun msg hmsg => ?_⟩
  rw [h] at hmsg
  cases hmsg

/-- C7 (amended).  Whenever the builder loop completes with zero
accumulated successes, `generate_training_data` returns normally with the
no-valid-games outcome — printing a diagnostic and writing no output —
rather than raising an error. -/
theorem emptyBuild_returns_normally (eloDf : List EloRow) (teamDf : List TeamRow)
    (playerDf : List PlayerRow) (lag nPlayers : Nat) (st : BuilderState)
    (hloop : buildLoop eloDf teamDf playerDf lag nPlayers teamDf
        initialBuilderState = .ok st)
    (hempty : st.xList = [] ∨ st.yList = []) :
    generateTrainingData eloDf teamDf playerDf lag nPlayers =
      .ok .noValidGames := by
  unfold generateTrainingData
  rw [hloop]
  simp only [Bind.bind, Except.bind]
  have hcond : (st.xList.isEmpty || st.yList.isEmpty) = true := by
    rcases hempty with h | h <;> simp [h]
  rw [if_pos hcond]

/-- Witness for the amended C7 at the single-unparseable-row input. -/
theorem emptyBuild_returns_normally_witness :
    generateTrainingData [] [gBad] [] 2 5 = .ok .noValidGames :=
  emptyBuild_returns_normally [] [gBad] [] 2 5 initialBuilderState
    (by decide) (Or.inl rfl)

/-! ### Structural facts about the player-block pipeline (shared by the
player-block theorems) -/

/-- Membership in the sorted-deduplicated id list is membership among the
row ids. -/
lemma mem_uniqueIdsAsc {rows : List PlayerRow} {p : Nat} :
    p ∈ uniqueIdsAsc rows ↔ p ∈ rows.map (fun r => r.playerId) := by
  unfold uniqueIdsAsc
  rw [(List.perm_insertionSort _ _).mem_iff, List.mem_dedup]

/-- The sorted-deduplicated id list has no duplicates. -/
lemma nodup_uniqueIdsAsc (rows : List PlayerRow) : (uniqueIdsAsc rows).Nodup :=
  ((List.perm_insertionSort _ _).nodup_iff).mpr (List.nodup_dedup _)

/-- The sorted-deduplicated id list counts the distinct row ids. -/
lemma length_uniqueIdsAsc (rows : List PlayerRow) :
    (uniqueIdsAsc rows).length =
      (rows.map (fun r => r.playerId)).toFinset.card := by
  unfold uniqueIdsAsc
  rw [(List.perm_insertionSort _ _).length_eq, ← List.card_toFinset]

/-- The id finset of the distinct-count expression used below. -/
def distinctQualifying (playerDf : List PlayerRow) (team : String)
    (gameDate : Int) : Nat :=
  (((qualifyingPlayerRows playerDf team gameDate).map
    (fun r => r.playerId)).toFinset).card

/-- The structural facts of the player-block pipeline: the grouped id list
is sorted, duplicate-free, enumerates exactly the selected top players,
and counts `min n` (number of distinct qualifying players); the two
source slices are identities; and the unpadded block is 19 entries per
grouped id. -/
lemma playerPipeline_facts (playerDf : List PlayerRow) (team : String)
    (gameDate : Int) (nPlayers : Nat) :
    (groupIdsOf playerDf team gameDate nPlayers).Pairwise (· ≤ ·) ∧
    (groupIdsOf playerDf team gameDate nPlayers).Nodup ∧
    (groupIdsOf playerDf team gameDate nPlayers).toFinset =
      (topPlayersOf playerDf team gameDate nPlayers).toFinset ∧
    (groupIdsOf playerDf team gameDate nPlayers).length =
      min nPlayers (distinctQualifying playerDf team gameDate) ∧
    selectedPlayersOf playerDf team gameDate nPlayers =
      topPlayersOf playerDf team gameDate nPlayers ∧
    (topPlayersOf playerDf team gameDate nPlayers).take
      (topPlayerStatsOf playerDf team gameDate nPlayers).length =
      topPlayersOf playerDf team gameDate nPlayers ∧
    (avgPlayerStatsOf playerDf team gameDate nPlayers).length =
      (groupIdsOf playerDf team gameDate nPlayers).length * 19 := by
  -- abbreviations
  have hLQ : List.Perm (lastNGamesOf playerDf team gameDate)
      (qualifyingPlayerRows playerDf team gameDate) :=
    List.perm_insertionSort _ _
  -- the sorted unique ids of the qualifying rows
  have hUlen : (uniqueIdsAsc (lastNGamesOf playerDf team gameDate)).length =
      distinctQualifying playerDf team gameDate := by
    rw [length_uniqueIdsAsc]
    unfold distinctQualifying
    congr 1
    exact List.toFinset_eq_of_perm _ _ (hLQ.map _)
  have hUle : (uniqueIdsAsc (lastNGamesOf playerDf team gameDate)).length ≤
      (lastNGamesOf playerDf team gameDate).length := by
    unfold uniqueIdsAsc
    rw [(List.perm_insertionSort _ _).length_eq]
    calc ((lastNGamesOf playerDf team gameDate).map
        (fun r => r.playerId)).dedup.length
        ≤ ((lastNGamesOf playerDf team gameDate).map
            (fun r => r.playerId)).length := (List.dedup_sublist _).length_le
      _ = _ := List.length_map _ _
  -- the ranked-and-truncated top id list
  have hTnodup : (topPlayersOf playerDf team gameDate nPlayers).Nodup := by
    unfold topPlayersOf
    exact (((List.perm_insertionSort _ _).nodup_iff).mpr
      (nodup_uniqueIdsAsc _)).sublist (List.take_sublist _ _)
  have hTlen : (topPlayersOf playerDf team gameDate nPlayers).length =
      min nPlayers (distinctQualifying playerDf team gameDate) := by
    unfold topPlayersOf
    rw [List.length_take, (List.perm_insertionSort _ _).length_eq, hUlen]
  have hTmem : ∀ p ∈ topPlayersOf playerDf team gameDate nPlayers,
      p ∈ (lastNGamesOf playerDf team gameDate).map (fun r => r.playerId) := by
    intro p hp
    unfold topPlayersOf at hp
    exact mem_uniqueIdsAsc.mp
      ((List.perm_insertionSort _ _).mem_iff.mp
        ((List.take_sublist _ _).mem hp))
  have hTleL : (topPlayersOf playerDf team gameDate nPlayers).length ≤
      (lastNGamesOf playerDf team gameDate).length := by
    rw [hTlen]
    exact le_trans (by rw [← hUlen]; exact min_le_right _ _) hUle
  -- the two no-op slices
  have hS : selectedPlayersOf playerDf team gameDate nPlayers =
      topPlayersOf playerDf team gameDate nPlayers :=
    List.take_of_length_le hTleL
  -- the filtered rows enumerate exactly the selected ids
  have hTSfin : ((topPlayerStatsOf playerDf team gameDate nPlayers).map
      (fun r => r.playerId)).toFinset =
      (topPlayersOf playerDf team gameDate nPlayers).toFinset := by
    apply Finset.ext
    intro p
    rw [List.mem_toFinset, List.mem_toFinset]
    constructor
    · intro hp
      obtain ⟨r, hr, hrp⟩ := List.mem_map.mp hp
      unfold topPlayerStatsOf at hr
      have := List.of_mem_filter hr
      rw [hS] at this
      rw [← hrp]
      exact List.elem_iff.mp this
    · intro hp
      obtain ⟨r, hr, hrp⟩ := List.mem_map.mp (hTmem p hp)
      apply List.mem_map.mpr
      refine ⟨r, ?_, hrp⟩
      unfold topPlayerStatsOf
      apply List.mem_filter.mpr
      refine ⟨hr, ?_⟩
      rw [hS]
      exact List.elem_iff.mpr (by rw [hrp]; exact hp)
  -- the grouped id list
  have hGsorted : (groupIdsOf playerDf team gameDate nPlayers).Pairwise (· ≤ ·) := by
    unfold groupIdsOf uniqueIdsAsc
    exact List.sorted_insertionSort _ _
  have hGnodup : (groupIdsOf playerDf team gameDate nPlayers).Nodup :=
    nodup_uniqueIdsAsc _
  have hGfin : (groupIdsOf playerDf team gameDate nPlayers).toFinset =
      (topPlayersOf playerDf team gameDate nPlayers).toFinset := by
    unfold groupIdsOf uniqueIdsAsc
    rw [← hTSfin]
    apply Finset.ext
    intro a
    rw [List.mem_toFinset, List.mem_toFinset,
      (List.perm_insertionSort _ _).mem_iff, List.mem_dedup]
  have hGlen : (groupIdsOf playerDf team gameDate nPlayers).length =
      min nPlayers (distinctQualifying playerDf team gameDate) := by
    rw [← List.toFinset_card_of_nodup hGnodup, hGfin,
      List.toFinset_card_of_nodup hTnodup, hTlen]
  -- the returned slice is also a no-op
  have hTtake : (topPlayersOf playerDf team gameDate nPlayers).take
      (topPlayerStatsOf playerDf team gameDate nPlayers).length =
      topPlayersOf playerDf team gameDate nPlayers := by
    apply List.take_of_length_le
    calc (topPlayersOf playerDf team gameDate nPlayers).length
        = (topPlayersOf playerDf team gameDate nPlayers).toFinset.card :=
          (List.toFinset_card_of_nodup hTnodup).symm
      _ = ((topPlayerStatsOf playerDf team gameDate nPlayers).map
            (fun r => r.playerId)).toFinset.card := by rw [hTSfin]
      _ ≤ ((topPlayerStatsOf playerDf team gameDate nPlayers).map
            (fun r => r.playerId)).length := by
          rw [List.card_toFinset]
          exact (List.dedup_sublist _).length_le
      _ = (topPlayerStatsOf playerDf team gameDate nPlayers).length :=
          List.length_map _ _
  -- the unpadded block width
  have hAlen : (avgPlayerStatsOf playerDf team gameDate nPlayers).length =
      (groupIdsOf playerDf team gameDate nPlayers).length * 19 := by
    unfold avgPlayerStatsOf
    rw [List.length_flatten, List.map_map]
    have hconst : ∀ pid, (List.length ∘ fun pid =>
        List.ofFn (colMean
          (((topPlayerStatsOf playerDf team gameDate nPlayers).filter
            (fun r => r.playerId == pid)).map (fun r => r.stats)))) pid = 19 := by
      intro pid
      simp [List.length_ofFn]
    rw [List.map_congr_left (fun pid _ => hconst pid), List.map_const',
      List.sum_replicate, smul_eq_mul]
  exact ⟨hGsorted, hGnodup, hGfin, hGlen, hS, hTtake, hAlen⟩

/-- The slot column list is 19 names per slot. -/
lemma length_playerSlotColumns (n : Nat) :
    (playerSlotColumns n).length = n * 19 := by
  unfold playerSlotColumns
  rw [List.length_flatten, List.map_map]
  have hconst : ∀ i ∈ List.range n, (List.length ∘ fun i =>
      TEAM_STATS_COLUMNS.map (fun c =>
        "Player_" ++ toString (i + 1) ++ "_" ++ c)) i = 19 := by
    intro i _
    simp [TEAM_STATS_COLUMNS]
  rw [List.map_congr_left hconst, List.map_const', List.sum_replicate,
    smul_eq_mul, List.length_range]

/-! ### C2: the player block always has exactly `n × 19` entries -/

/-- C2.  Whenever `get_player_stats_top_n_average` succeeds (that is,
whenever at least one qualifying prior player row exists), the flattened
block has exactly `n_players × 19` entries and so does its column list,
whatever the number of distinct qualifying players; the entries past the
`min n_players (distinct qualifying players)` filled slots are all
zeros. -/
theorem playerBlock_fixed_width (playerDf : List PlayerRow) (team : String)
    (gameDate : Int) (lag nPlayers : Nat) (block : List Rat)
    (cols : List String) (tops : List Nat)
    (hok : getPlayerStatsTopNAverage playerDf team gameDate lag nPlayers
        = .ok (block, cols, tops)) :
    block.length = nPlayers * 19 ∧
    cols.length = nPlayers * 19 ∧
    block.drop ((groupIdsOf playerDf team gameDate nPlayers).length * 19) =
      List.replicate
        ((nPlayers - (groupIdsOf playerDf team gameDate nPlayers).length) * 19)
        (0 : Rat) ∧
    (groupIdsOf playerDf team gameDate nPlayers).length =
      min nPlayers (distinctQualifying playerDf team gameDate) := by
  obtain ⟨-, -, -, hGlen, -, -, hAlen⟩ :=
    playerPipeline_facts playerDf team gameDate nPlayers
  unfold getPlayerStatsTopNAverage at hok
  by_cases hemp : (qualifyingPlayerRows playerDf team gameDate).isEmpty
  · rw [if_pos hemp] at hok
    cases hok
  · rw [if_neg hemp] at hok
    simp only [Except.ok.injEq, Prod.mk.injEq] at hok
    obtain ⟨hb, hc, -⟩ := hok
    subst hb
    subst hc
    have hkn : (groupIdsOf playerDf team gameDate nPlayers).length ≤ nPlayers := by
      rw [hGlen]
      exact min_le_left _ _
    refine ⟨?_, length_playerSlotColumns nPlayers, ?_, hGlen⟩ <;>
      unfold paddedBlockOf <;>
      by_cases hlt : (groupIdsOf playerDf team gameDate nPlayers).length < nPlayers
    · rw [if_pos (by omega)]
      rw [List.length_append, hAlen, List.length_replicate]
      omega
    · have hk : (groupIdsOf playerDf team gameDate nPlayers).length = nPlayers := by
        omega
      rw [if_neg (by omega)]
      rw [hAlen, hk]
    · rw [if_pos (by omega)]
      exact List.drop_left' hAlen
    · have hk : (groupIdsOf playerDf team gameDate nPlayers).length = nPlayers := by
        omega
      rw [if_neg (by omega)]
      rw [hk, Nat.sub_self]
      simp only [Nat.zero_mul, List.replicate_zero]
      exact List.drop_eq_nil_of_le (by rw [hAlen, hk])

/-- Concrete input for the player-block claims: two distinct qualifying
players (ids `5` and `3`, with `30` and `10` summed minutes). -/
def playerDfD : List PlayerRow :=
  [{ playerId := 5, matchup := "GSW vs. LAL", gameDate := 1, mins := 30,
     stats := fun _ => 5 },
   { playerId := 3, matchup := "GSW vs. LAL", gameDate := 1, mins := 10,
     stats := fun _ => 3 }]

/-- Witness for C2 at `playerDfD` with `n_players = 3` and two distinct
qualifying players: width `3 × 19`, last slot all zeros. -/
theorem playerBlock_fixed_width_witness :
    (getPlayerStatsTopNAverage playerDfD "GSW" 2 0 3).toOption.map
      (fun t => (t.1.length, t.2.1.length,
        t.1.drop ((groupIdsOf playerDfD "GSW" 2 3).length * 19))) =
    some (3 * 19, 3 * 19,
      List.replicate ((3 - (groupIdsOf playerDfD "GSW" 2 3).length) * 19)
        (0 : Rat)) := by
  obtain ⟨b, c, t, hok⟩ :
      ∃ b c t, getPlayerStatsTopNAverage playerDfD "GSW" 2 0 3 = .ok (b, c, t) :=
    ⟨_, _, _, rfl⟩
  obtain ⟨h1, h2, h3, -⟩ :=
    playerBlock_fixed_width playerDfD "GSW" 2 0 3 b c t hok
  rw [hok]
  simp [Except.toOption, h1, h2, h3]

/-! ### C3: the player block is ordered by player id, not by minutes rank

The spec claims the flattened block lists the selected players in rank
order (largest summed minutes first).  The source flattens
`top_player_stats.groupby('Player_ID')[STATS].mean().values`, and a pandas
`groupby` sorts its keys ascending — so the block is ordered by ascending
player id among the selected top-`n` players, regardless of their minutes
rank. -/

/-- C3 (amended).  On success, the flattened player block lists the
selected top-`n` players' per-statistic mean vectors ordered by ascending
player id (the `groupby` key order) — not by minutes rank — followed by
the zero padding; the grouped id list is strictly increasing and
enumerates exactly the ids that the ranking selected. -/
theorem playerBlock_order_amended (playerDf : List PlayerRow) (team : String)
    (gameDate : Int) (lag nPlayers : Nat) (block : List Rat)
    (cols : List String) (tops : List Nat)
    (hok : getPlayerStatsTopNAverage playerDf team gameDate lag nPlayers
        = .ok (block, cols, tops)) :
    (groupIdsOf playerDf team gameDate nPlayers).Pairwise (· < ·) ∧
    (groupIdsOf playerDf team gameDate nPlayers).toFinset = tops.toFinset ∧
    block =
      ((groupIdsOf playerDf team gameDate nPlayers).map (fun pid =>
        List.ofFn (colMean
          (((qualifyingPlayerRows playerDf team gameDate).filter
            (fun r => r.playerId == pid)).map (fun r => r.stats))))).flatten ++
      List.replicate
        ((nPlayers - (groupIdsOf playerDf team gameDate nPlayers).length) * 19)
        0 := by
  obtain ⟨hGsorted, hGnodup, hGfin, hGlen, hS, hTtake, hAlen⟩ :=
    playerPipeline_facts playerDf team gameDate nPlayers
  unfold getPlayerStatsTopNAverage at hok
  by_cases hemp : (qualifyingPlayerRows playerDf team gameDate).isEmpty
  · rw [if_pos hemp] at hok
    cases hok
  · rw [if_neg hemp] at hok
    simp only [Except.ok.injEq, Prod.mk.injEq] at hok
    obtain ⟨hb, -, ht⟩ := hok
    subst hb
    subst ht
    refine ⟨List.Pairwise.imp₂ (fun a b hab hne => lt_of_le_of_ne hab hne)
        hGsorted hGnodup, by rw [hTtake, hGfin], ?_⟩
    -- per-player means over `top_player_stats` equal those over the
    -- qualifying rows
    have hmean : ∀ pid ∈ groupIdsOf playerDf team gameDate nPlayers,
        (fun pid => List.ofFn (colMean
          (((topPlayerStatsOf playerDf team gameDate nPlayers).filter
            (fun r => r.playerId == pid)).map (fun r => r.stats)))) pid =
        (fun pid => List.ofFn (colMean
          (((qualifyingPlayerRows playerDf team gameDate).filter
            (fun r => r.playerId == pid)).map (fun r => r.stats)))) pid := by
      intro pid hpid
      have hpidT : pid ∈ topPlayersOf playerDf team gameDate nPlayers := by
        have := hGfin ▸ List.mem_toFinset.mpr hpid
        exact List.mem_toFinset.mp this
      have hfilter : (topPlayerStatsOf playerDf team gameDate nPlayers).filter
          (fun r => r.playerId == pid) =
          (lastNGamesOf playerDf team gameDate).filter
            (fun r => r.playerId == pid) := by
        unfold topPlayerStatsOf
        rw [List.filter_filter]
        apply List.filter_congr
        intro r _
        by_cases hr : r.playerId = pid
        · simp only [hr, beq_self_eq_true, Bool.true_and]
          rw [hS]
          exact List.elem_iff.mpr hpidT
        · simp [hr]
      have hperm : List.Perm
          (((lastNGamesOf playerDf team gameDate).filter
            (fun r => r.playerId == pid)).map (fun r => r.stats))
          (((qualifyingPlayerRows playerDf team gameDate).filter
            (fun r => r.playerId == pid)).map (fun r => r.stats)) :=
        ((List.perm_insertionSort _ _).filter _).map _
      simp only [hfilter, colMean_perm hperm]
    have hA : avgPlayerStatsOf playerDf team gameDate nPlayers =
        ((groupIdsOf playerDf team gameDate nPlayers).map (fun pid =>
          List.ofFn (colMean
            (((qualifyingPlayerRows playerDf team gameDate).filter
              (fun r => r.playerId == pid)).map (fun r => r.stats))))).flatten := by
      unfold avgPlayerStatsOf
      rw [List.map_congr_left hmean]
    unfold paddedBlockOf
    by_cases hlt :
        (groupIdsOf playerDf team gameDate nPlayers).length < nPlayers
    · rw [if_pos (by omega), hA]
    · have hk : (groupIdsOf playerDf team gameDate nPlayers).length = nPlayers := by
        have := hGlen ▸ min_le_left nPlayers
          (distinctQualifying playerDf team gameDate)
        omega
      rw [if_neg (by omega), hA, hk, Nat.sub_self]
      simp

/-! #### Evaluation of the pipeline at `playerDfD` (team `GSW`, cutoff `2`) -/

/-- The two `playerDfD` rows qualify and share a date, so sorting keeps
input order. -/
lemma lastN_playerDfD : lastNGamesOf playerDfD "GSW" 2 = playerDfD := by
  decide

/-- Player `5` has `30` summed minutes. -/
lemma minutes_playerDfD_5 : minutesSum (lastNGamesOf playerDfD "GSW" 2) 5 = 30 := by
  rw [lastN_playerDfD]
  simp [minutesSum, playerDfD]

/-- Player `3` has `10` summed minutes. -/
lemma minutes_playerDfD_3 : minutesSum (lastNGamesOf playerDfD "GSW" 2) 3 = 10 := by
  rw [lastN_playerDfD]
  simp [minutesSum, playerDfD]

/-- The minutes ranking selects `5` first, then `3`. -/
lemma tops_playerDfD : topPlayersOf playerDfD "GSW" 2 2 = [5, 3] := by
  have hU : uniqueIdsAsc (lastNGamesOf playerDfD "GSW" 2) = [3, 5] := by
    rw [lastN_playerDfD]
    decide
  have hcond : ¬ (minutesSum (lastNGamesOf playerDfD "GSW" 2) 5 ≤
      minutesSum (lastNGamesOf playerDfD "GSW" 2) 3) := by
    rw [minutes_playerDfD_5, minutes_playerDfD_3]
    norm_num
  unfold topPlayersOf
  rw [hU]
  simp [List.insertionSort, List.orderedInsert, hcond]

/-- The `[:len(last_n_games)]` slice is the identity here. -/
lemma sel_playerDfD : selectedPlayersOf playerDfD "GSW" 2 2 = [5, 3] := by
  unfold selectedPlayersOf
  rw [tops_playerDfD, lastN_playerDfD]
  decide

/-- Both rows belong to selected players. -/
lemma topStats_playerDfD : topPlayerStatsOf playerDfD "GSW" 2 2 = playerDfD := by
  unfold topPlayerStatsOf
  rw [sel_playerDfD, lastN_playerDfD]
  decide

/-- The grouped ids come out ascending: `3` before `5`. -/
lemma groupIds_playerDfD : groupIdsOf playerDfD "GSW" 2 2 = [3, 5] := by
  unfold groupIdsOf
  rw [topStats_playerDfD]
  decide

/-- The unpadded block: player `3`'s means first, then player `5`'s. -/
lemma avg_playerDfD : avgPlayerStatsOf playerDfD "GSW" 2 2 =
    List.replicate 19 (3 : Rat) ++ List.replicate 19 5 := by
  unfold avgPlayerStatsOf
  rw [groupIds_playerDfD, topStats_playerDfD]
  simp [playerDfD, colMean, List.ofFn_const]

/-- Counterexample to C3 as stated.  At `playerDfD` with `n = 2` and cutoff
`2`, player `5` has strictly the largest summed minutes and is ranked
first (the returned id list is `[5, 3]`), and player `5`'s per-statistic
mean vector is nineteen `5`s — yet the first 19 entries of the flattened
block are nineteen `3`s (player `3`'s means, because the grouping orders
by ascending player id), which differ from the rank-1 player's means. -/
theorem playerBlock_order_counterexample :
    minutesSum (lastNGamesOf playerDfD "GSW" 2) 3 <
      minutesSum (lastNGamesOf playerDfD "GSW" 2) 5 ∧
    (getPlayerStatsTopNAverage playerDfD "GSW" 2 0 2).toOption.map
      (fun t => (t.1.take 19, t.2.2)) =
      some (List.replicate 19 (3 : Rat), [5, 3]) ∧
    List.ofFn (colMean (((lastNGamesOf playerDfD "GSW" 2).filter
      (fun r => r.playerId == 5)).map (fun r => r.stats))) =
      List.replicate 19 (5 : Rat) ∧
    List.replicate 19 (3 : Rat) ≠ List.replicate 19 (5 : Rat) := by
  refine ⟨?_, ?_, ?_, by decide⟩
  · rw [minutes_playerDfD_5, minutes_playerDfD_3]
    norm_num
  · have hok : getPlayerStatsTopNAverage playerDfD "GSW" 2 0 2 =
        .ok (paddedBlockOf playerDfD "GSW" 2 2, playerSlotColumns 2,
          (topPlayersOf playerDfD "GSW" 2 2).take
            (topPlayerStatsOf playerDfD "GSW" 2 2).length) := by
      unfold getPlayerStatsTopNAverage
      rw [if_neg (by decide)]
    have hpad : paddedBlockOf playerDfD "GSW" 2 2 =
        List.replicate 19 (3 : Rat) ++ List.replicate 19 5 := by
      unfold paddedBlockOf
      rw [groupIds_playerDfD, avg_playerDfD]
      norm_num
    rw [hok, hpad, tops_playerDfD, topStats_playerDfD]
    simp [Except.toOption, List.take_left' (by simp : (List.replicate 19 (3 : Rat)).length = 19)]
    decide
  · rw [lastN_playerDfD]
    simp [playerDfD, colMean, List.ofFn_const]

/-- Witness for the amended C3 at `playerDfD` with `n = 2`: the block is
the ascending-id mean vectors with (empty) padding. -/
theorem playerBlock_order_amended_witness :
    (groupIdsOf playerDfD "GSW" 2 2).Pairwise (· < ·) ∧
    (getPlayerStatsTopNAverage playerDfD "GSW" 2 0 2).toOption.map
      (fun t => t.1) =
      some (((groupIdsOf playerDfD "GSW" 2 2).map (fun pid =>
        List.ofFn (colMean
          (((qualifyingPlayerRows playerDfD "GSW" 2).filter
            (fun r => r.playerId == pid)).map (fun r => r.stats))))).flatten ++
        List.replicate ((2 - (groupIdsOf playerDfD "GSW" 2 2).length) * 19) 0) := by
  obtain ⟨b, c, t, hok⟩ : ∃ b c t,
      getPlayerStatsTopNAverage playerDfD "GSW" 2 0 2 = .ok (b, c, t) :=
    ⟨_, _, _, rfl⟩
  obtain ⟨h1, -, h3⟩ := playerBlock_order_amended playerDfD "GSW" 2 0 2 b c t hok
  exact ⟨h1, by rw [hok]; simp [Except.toOption]; exact h3⟩

/-! ### C6: sentinel seeding and strictly increasing series dates -/

/-- The two teams a game row touches during replay: the row's own team and
the opponent parsed from the matchup text. -/
def involvedTeams (g : Game) : List String :=
  [g.team, opponentOf g.matchup]

/-- The replay invariant: every series starts at the sentinel
`(minD - 1, STARTING_ELO)`, its dates are strictly increasing, and its
last date precedes the date of every still-unprocessed game that touches
its team. -/
def SeriesInv (minD : Int) (rest : List Game) (st : EloState) : Prop :=
  ∀ p ∈ st, p.2.head? = some (minD - 1, STARTING_ELO) ∧
    (p.2.map Prod.fst).Chain' (· < ·) ∧
    ∀ g ∈ rest, p.1 ∈ involvedTeams g →
      ∀ e, p.2.getLast? = some e → e.1 < g.date

/-- An entry of `appendEntry st t e` is an entry of `st` with the same key,
appended with `e` exactly when its key is `t`. -/
lemma appendEntry_cases {st : EloState} {t : String} {e : Int × ℝ}
    {p : String × Series} (hp : p ∈ appendEntry st t e) :
    ∃ q ∈ st, p.1 = q.1 ∧
      ((q.1 = t ∧ p.2 = q.2 ++ [e]) ∨ (q.1 ≠ t ∧ p.2 = q.2)) := by
  unfold appendEntry at hp
  obtain ⟨q, hq, hfq⟩ := List.mem_map.mp hp
  by_cases hqt : q.1 = t
  · exact ⟨q, hq, by rw [← hfq]; simp [hqt], Or.inl ⟨hqt, by rw [← hfq]; simp [hqt]⟩⟩
  · exact ⟨q, hq, by rw [← hfq]; simp [hqt], Or.inr ⟨hqt, by rw [← hfq]; simp [hqt]⟩⟩

/-- The winner and the loser are the two involved teams. -/
lemma winner_loser_involved (g : Game) :
    winnerOf g ∈ involvedTeams g ∧ loserOf g ∈ involvedTeams g := by
  unfold winnerOf loserOf involvedTeams
  by_cases h : g.wl == some "W" <;> simp [h]

/-- With a well-formed matchup the two sides differ. -/
lemma winner_ne_loser {g : Game} (hself : opponentOf g.matchup ≠ g.team) :
    winnerOf g ≠ loserOf g := by
  unfold winnerOf loserOf
  by_cases h : g.wl == some "W" <;> simp [h]
  · exact fun hc => hself hc.symm
  · exact hself

/-- One `elo_formula` step preserves the replay invariant, consuming the
processed game from the pending list. -/
lemma eloFormula_preserves_inv {minD : Int} {g : Game} {rest : List Game}
    {st st' : EloState} {k m : ℝ}
    (hself : opponentOf g.matchup ≠ g.team)
    (hfut : ∀ g' ∈ rest, g.date ≤ g'.date ∧
      (∀ t ∈ involvedTeams g, t ∈ involvedTeams g' → g.date < g'.date))
    (hinv : SeriesInv minD (g :: rest) st)
    (hok : eloFormula g st k m = .ok st') :
    SeriesInv minD rest st' := by
  have hwl := winner_ne_loser hself
  obtain ⟨hwin, hlos⟩ := winner_loser_involved g
  unfold eloFormula at hok
  rcases hw : lookupSeries st (winnerOf g) with _ | ws <;> rw [hw] at hok
  · cases hok
  rcases hl : lookupSeries st (loserOf g) with _ | ls <;> rw [hl] at hok
  · cases hok
  dsimp only at hok
  rcases hwe : ws.getLast? with _ | w <;> rw [hwe] at hok
  · cases hok
  rcases hle : ls.getLast? with _ | l <;> rw [hle] at hok
  · cases hok
  dsimp only at hok
  simp only [Except.ok.injEq] at hok
  subst hok
  -- the appended entries
  intro p hp
  obtain ⟨q1, hq1, hkey1, hcase1⟩ := appendEntry_cases hp
  obtain ⟨q, hq, hkey, hcase⟩ := appendEntry_cases hq1
  obtain ⟨hhead, hchain, hfutq⟩ := hinv q hq
  have hqnil : q.2 ≠ [] := by
    intro hnil
    rw [hnil] at hhead
    cases hhead
  -- `grow` handles the two append cases uniformly
  have grow : ∀ (d : Int) (x : ℝ), p.2 = q.2 ++ [(d, x)] →
      (∀ g' ∈ g :: rest, q.1 ∈ involvedTeams g' → d < g'.date → True) →
      ((∀ e, q.2.getLast? = some e → e.1 < d) →
        p.2.head? = some (minD - 1, STARTING_ELO) ∧
        (p.2.map Prod.fst).Chain' (· < ·)) := by
    intro d x hps _ hlast
    constructor
    · rw [hps]
      cases hq2 : q.2 with
      | nil => exact absurd hq2 hqnil
      | cons a as =>
        rw [hq2] at hhead
        simpa using hhead
    · rw [hps, List.map_append]
      rw [List.chain'_append]
      refine ⟨hchain, List.chain'_singleton _, ?_⟩
      intro x' hx' y hy
      simp only [List.map_cons, List.map_nil, List.head?_cons, Option.mem_def,
        Option.some.injEq] at hy
      subst hy
      rw [List.getLast?_map] at hx'
      rcases he : q.2.getLast? with _ | e
      · rw [he] at hx'
        cases hx'
      · rw [he] at hx'
        simp at hx'
        have := hlast e he
        omega
  have hpq : p.1 = q.1 := hkey1.trans hkey
  rcases hcase with ⟨hqw, hq12⟩ | ⟨hqw, hq12⟩
  · -- the winner's series: second append does not touch it
    rcases hcase1 with ⟨hq1l, -⟩ | ⟨-, hp2⟩
    · exact absurd (((hkey.trans hqw).symm.trans hq1l :
        winnerOf g = loserOf g)) hwl
    · have hps : p.2 = q.2 ++ [(g.date, updateElo w.2 l.2 1 k m)] := by
        rw [hp2, hq12]
      have hlast : ∀ e, q.2.getLast? = some e → e.1 < g.date := by
        intro e he
        exact hfutq g (List.mem_cons_self _ _) (by rw [hqw]; exact hwin) e he
      refine ⟨(grow _ _ hps (by intro g' _ _ _; trivial) hlast).1,
              (grow _ _ hps (by intro g' _ _ _; trivial) hlast).2, ?_⟩
      intro g' hg' hpt e' he'
      rw [hps, List.getLast?_concat] at he'
      simp only [Option.some.injEq] at he'
      subst he'
      refine (hfut g' hg').2 (winnerOf g) hwin ?_
      rw [← hqw, ← hpq]
      exact hpt
  · -- not the winner's key
    rcases hcase1 with ⟨hq1l, hp2⟩ | ⟨hq1l, hp2⟩
    · -- the loser's series
      have hps : p.2 = q.2 ++ [(g.date, updateElo l.2 w.2 0 k m)] := by
        rw [hp2, hq12]
      have hql : q.1 = loserOf g := by
        rw [← hkey]
        exact hq1l
      have hlast : ∀ e, q.2.getLast? = some e → e.1 < g.date := by
        intro e he
        exact hfutq g (List.mem_cons_self _ _) (by rw [hql]; exact hlos) e he
      refine ⟨(grow _ _ hps (by intro g' _ _ _; trivial) hlast).1,
              (grow _ _ hps (by intro g' _ _ _; trivial) hlast).2, ?_⟩
      intro g' hg' hpt e' he'
      rw [hps, List.getLast?_concat] at he'
      simp only [Option.some.injEq] at he'
      subst he'
      refine (hfut g' hg').2 (loserOf g) hlos ?_
      rw [← hql, ← hpq]
      exact hpt
    · -- untouched series
      have hps : p.2 = q.2 := by rw [hp2, hq12]
      refine ⟨hps ▸ hhead, hps ▸ hchain, ?_⟩
      intro g' hg' hpt e' he'
      refine hfutq g' (List.mem_cons_of_mem _ hg') ?_ e' (by rw [← hps]; exact he')
      rw [← hpq]
      exact hpt

/-- The full replay preserves the invariant down to an empty pending
list. -/
lemma replay_preserves_inv (minD : Int) :
    ∀ (gs : List Game) (st st' : EloState),
      (∀ g ∈ gs, opponentOf g.matchup ≠ g.team) →
      gs.Pairwise (fun g1 g2 => g1.date ≤ g2.date ∧
        ∀ t ∈ involvedTeams g1, t ∈ involvedTeams g2 → g1.date < g2.date) →
      SeriesInv minD gs st →
      gs.foldlM (fun s g => eloFormula g s K_FACTOR M) st = .ok st' →
      SeriesInv minD [] st' := by
  intro gs
  induction gs with
  | nil =>
    intro st st' _ _ hinv hfold
    have hst : st = st' := by
      simpa [pure, Except.pure] using hfold
    subst hst
    intro p hp
    obtain ⟨h1, h2, -⟩ := hinv p hp
    exact ⟨h1, h2, by intro g hg; cases hg⟩
  | cons g gs ih =>
    intro st st' hself hpair hinv hfold
    rw [List.foldlM_cons] at hfold
    rcases hg : eloFormula g st K_FACTOR M with e | st₁ <;> rw [hg] at hfold
    · simp [Bind.bind, Except.bind] at hfold
    · simp only [Bind.bind, Except.bind] at hfold
      have hpair' := List.pairwise_cons.mp hpair
      exact ih st₁ st'
        (fun g' hg' => hself g' (List.mem_cons_of_mem _ hg'))
        hpair'.2
        (eloFormula_preserves_inv (hself g (List.mem_cons_self _ _))
          hpair'.1 hinv hg)
        hfold

/-- C6.  After seeding and fully replaying a season (nonempty, sorted
nondecreasing by date, with no team touched by two same-date games and no
self-matchups), every team's rating series starts with the sentinel entry
dated exactly one day before the earliest game date, at the starting
value `1000`, and its date sequence is strictly increasing. -/
theorem computeSeasonElo_series_invariant (games : List Game) (st : EloState)
    (hne : games ≠ [])
    (hself : ∀ g ∈ games, opponentOf g.matchup ≠ g.team)
    (hord : games.Pairwise (fun g1 g2 => g1.date ≤ g2.date ∧
      ∀ t ∈ involvedTeams g1, t ∈ involvedTeams g2 → g1.date < g2.date))
    (hok : computeSeasonElo games = .ok st) :
    ∀ p ∈ st,
      p.2.head? = some ((((games.map (fun g => g.date)).min?).getD 0) - 1,
        STARTING_ELO) ∧
      (p.2.map Prod.fst).Chain' (· < ·) := by
  unfold computeSeasonElo at hok
  have hinit : SeriesInv (((games.map (fun g => g.date)).min?).getD 0) games
      (initializeElo (dedupFirst (games.map (fun g => g.team)))
        (((games.map (fun g => g.date)).min?).getD 0)) := by
    intro p hp
    unfold initializeElo at hp
    obtain ⟨t, ht, hpt⟩ := List.mem_map.mp hp
    subst hpt
    refine ⟨rfl, by simp, ?_⟩
    intro g hg _ e he
    simp only [List.getLast?_singleton, Option.some.injEq] at he
    have hmin : (((games.map (fun g => g.date)).min?).getD 0) ≤ g.date :=
      min?_getD_le_of_mem_int (List.mem_map_of_mem _ hg)
    have he1 : e.1 = (((games.map (fun g => g.date)).min?).getD 0) - 1 := by
      rw [← he]
    omega
  have hfinal := replay_preserves_inv _ games _ st hself hord hinit hok
  intro p hp
  obtain ⟨h1, h2, -⟩ := hfinal p hp
  exact ⟨h1, h2⟩

/-- A two-row season: `A` beats `B` on day `5`, `B` beats `A` on day `7`
(one row per physical game). -/
def gamesW : List Game :=
  [{ team := "A", matchup := "A vs. B", date := 5, wl := some "W" },
   { team := "B", matchup := "B @ A", date := 7, wl := some "W" }]

/-- Witness for C6 at `gamesW`: the replay succeeds and every series
starts at `(4, 1000)` with strictly increasing dates. -/
theorem computeSeasonElo_series_invariant_witness :
    ∃ st, computeSeasonElo gamesW = .ok st ∧ ∀ p ∈ st,
      p.2.head? = some ((((gamesW.map (fun g => g.date)).min?).getD 0) - 1,
        STARTING_ELO) ∧
      (p.2.map Prod.fst).Chain' (· < ·) :=
  ⟨_, rfl, computeSeasonElo_series_invariant gamesW _ (by decide) (by decide)
    (by decide) rfl⟩

end NBA
